import Mathlib

/-
  Verification of the in-memory store layer of sistema_libros_funcional_go.

  The repository ships two near-duplicate variants of the `db` package
  (both in src/unnamed/part_005) and two variants of the `domain` package
  (src/internal/domain/models.go and src/unnamed/part_004).  Where the
  variants differ in behaviour, both are embedded, with an `A` suffix for
  the first variant of part_005 (lines 1-285) and a `B` suffix for the
  second (lines 287-605).  Go machine strings are modelled as Lean strings
  over their character lists; `int64` identifiers are carried as `Int`,
  and wherever overflow of the sequence counter is what a property is
  about, the increment is taken modulo 2^64 with two's-complement sign
  (`wrap64`, `createUserW`), exactly as Go defines `int64` wraparound;
  the remaining properties are about single calls or positions where the
  exact-integer and the wrapped increment coincide.  Go's `(T, error)`
  returns are modelled as products with an `Option String` error
  component, and maps as association lists whose key lists stay
  duplicate-free.
-/



/-- Model of Go `strings.ToLower` (ASCII case folding, as exercised by the
repository's data). -/
def goToLower (s : String) : String :=
  String.mk (s.data.map Char.toLower)

/-- Model of Go `strings.TrimSpace`. -/
def goTrim (s : String) : String :=
  String.mk (((s.data.dropWhile Char.isWhitespace).reverse.dropWhile
    Char.isWhitespace).reverse)

/-- Helper for substring search: does `needle` occur at the head of `hay`? -/
def listStarts : List Char → List Char → Bool
  | _, [] => true
  | [], _ :: _ => false
  | c :: cs, d :: ds => if c = d then listStarts cs ds else false

/-- Helper for substring search: does `needle` occur anywhere in `hay`? -/
def listHasSub : List Char → List Char → Bool
  | [], needle => listStarts [] needle
  | c :: cs, needle =>
    if listStarts (c :: cs) needle then true else listHasSub cs needle

/-- Model of Go `strings.Contains s sub`. -/
def goContains (s sub : String) : Bool :=
  listHasSub s.data sub.data

/-- Model of Go `strings.EqualFold` (case-insensitive equality). -/
def goEqualFold (a b : String) : Bool :=
  goToLower a = goToLower b

/-- Lookup in an association-list model of a Go map. -/
def mlookup {α β : Type} [DecidableEq α] : List (α × β) → α → Option β
  | [], _ => none
  | (k, v) :: rest, a => if a = k then some v else mlookup rest a

/-- Model of Go map assignment `m[k] = v`. -/
def minsert {α β : Type} [DecidableEq α] : List (α × β) → α → β → List (α × β)
  | [], a, b => [(a, b)]
  | (k, v) :: rest, a, b =>
    if a = k then (a, b) :: rest else (k, v) :: minsert rest a b

/-- Model of Go map deletion `delete(m, k)`. -/
def mdelete {α β : Type} [DecidableEq α] : List (α × β) → α → List (α × β)
  | [], _ => []
  | (k, v) :: rest, a =>
    if a = k then mdelete rest a else (k, v) :: mdelete rest a

/-- The key list of an association-list map. -/
def keysOf {α β : Type} (m : List (α × β)) : List α :=
  m.map Prod.fst

/-
  ===========================================
  Domain model (src/internal/domain/models.go and src/unnamed/part_004)
  ===========================================
-/

/-- Go `domain.User` (fields of both domain variants coincide; `createdAt`
stands for the `time.Time` value passed in by the caller). -/
structure User where
  id : Int
  name : String
  email : String
  role : String
  active : Bool
  createdAt : Nat
deriving DecidableEq

/-- Go `domain.Book`. -/
structure Book where
  id : Int
  title : String
  author : String
  year : Int
  isbn : String
  categoryTI : String
  tags : List String
  active : Bool
  createdAt : Nat
deriving DecidableEq

/-- Go `domain.AccessEvent`. -/
structure AccessEvent where
  id : Int
  bookID : Int
  userID : Int
  accessType : String
  timestamp : Nat
deriving DecidableEq

/-- Go `domain.BookFilter`. -/
structure BookFilter where
  titleContains : String
  authorContains : String
  categoryTI : String
  yearFrom : Int
  yearTo : Int
  tags : List String
deriving DecidableEq

/-- Go `allowedRoles` of src/internal/domain/models.go. -/
def allowedRolesModels : List String := ["ADMIN", "READER"]

/-- Go `allowedRoles` of src/unnamed/part_004. -/
def allowedRolesV2 : List String := ["ADMIN", "CONSULTOR_TI", "SOLO_LECTURA"]

/-- Go `NewUser` of src/internal/domain/models.go: validates but does not
normalize the email. -/
def newUserModels (name email role : String) (now : Nat) : Except String User :=
  if goTrim name = "" then Except.error "el nombre no puede estar vacío"
  else if goTrim email = "" then Except.error "el email no puede estar vacío"
  else if allowedRolesModels.contains role = false then Except.error "rol no válido"
  else Except.ok
    { id := 0, name := name, email := email, role := role,
      active := true, createdAt := now }

/-- Go `NewUser` of src/unnamed/part_004: trims the name and lowercases and
trims the email before storing it. -/
def newUserV2 (name email role : String) (now : Nat) : Except String User :=
  let name2 := goTrim name
  let email2 := goTrim (goToLower email)
  if name2 = "" then Except.error "el nombre no puede estar vacío"
  else if goContains email2 "@" = false then Except.error "el email no es válido"
  else if allowedRolesV2.contains role = false then
    Except.error "el rol indicado no es válido"
  else Except.ok
    { id := 0, name := name2, email := email2, role := role,
      active := true, createdAt := now }

/-
  ===========================================
  In-memory user repository (src/unnamed/part_005)
  ===========================================
-/

/-- Go `db.InMemoryUserRepo` (identical fields in both part_005 variants).
`seq` carries the `int64` sequence counter; the operations below keep it
in the `int64` range (`createUserW` applies the wraparound explicitly). -/
structure UserRepo where
  seq : Int
  users : List (Int × User)
  emailIndex : List (String × Int)
deriving DecidableEq

/-- Go `NewInMemoryUserRepo`. -/
def initialUserRepo : UserRepo :=
  { seq := 0, users := [], emailIndex := [] }

/-- Go `InMemoryUserRepo.Create` (identical in both part_005 variants): rejects
an email already present in the index, otherwise assigns `seq+1` via
`nextID`/`SetID` and inserts into both maps.  Returns the error, the
(possibly mutated) argument, and the new store state.  The increment is
written as exact `r.seq + 1`; it agrees with Go's wrapping `int64`
increment on every state with `seq < 2^63 - 1`, and `createUserW` below
is the same operation with the `int64` wraparound made explicit, used by
the properties for which overflow matters. -/
def createUser (r : UserRepo) (u : User) : Option String × User × UserRepo :=
  if (mlookup r.emailIndex u.email).isSome then
    (some "ya existe un usuario con ese email", u, r)
  else
    let id := r.seq + 1
    let u2 := { u with id := id }
    (none, u2,
      { seq := id, users := minsert r.users id u2,
        emailIndex := minsert r.emailIndex u2.email id })

/-- Go `InMemoryUserRepo.Update`, first part_005 variant (lines 53-63): writes
the new email into the index but never removes the old entry. -/
def updateUserA (r : UserRepo) (u : User) : Option String × UserRepo :=
  match mlookup r.users u.id with
  | none => (some "usuario no encontrado para actualizar", r)
  | some _ =>
    (none,
      { r with users := minsert r.users u.id u,
               emailIndex := minsert r.emailIndex u.email u.id })

/-- The index-repair scan of the second-variant `Update` (part_005 lines
364-370): the first index entry holding the user's id under a different
email. -/
def findStale : List (String × Int) → Int → String → Option String
  | [], _, _ => none
  | (e, i) :: rest, uid, em =>
    if i = uid ∧ e ≠ em then some e else findStale rest uid em

/-- Go `InMemoryUserRepo.Update`, second part_005 variant (lines 351-374):
rejects id 0, rejects unknown ids, and repairs the email index when the
email changed. -/
def updateUserB (r : UserRepo) (u : User) : Option String × UserRepo :=
  if u.id = 0 then (some "el usuario no tiene ID asignado", r)
  else
    match mlookup r.users u.id with
    | none => (some "no existe un usuario con ese ID", r)
    | some _ =>
      let idx :=
        match findStale r.emailIndex u.id u.email with
        | some e => minsert (mdelete r.emailIndex e) u.email u.id
        | none => r.emailIndex
      (none, { r with users := minsert r.users u.id u, emailIndex := idx })

/-- Go `InMemoryUserRepo.FindByID` (identical in both variants): absence is the
`(nil, nil)` pair, never an error. -/
def findUserByID (r : UserRepo) (id : Int) : Option User × Option String :=
  (mlookup r.users id, none)

/-
  ===========================================
  In-memory book repository (src/unnamed/part_005)
  ===========================================
-/

/-- Go `db.InMemoryBookRepo`. -/
structure BookRepo where
  seq : Int
  books : List (Int × Book)
deriving DecidableEq

/-- Go `NewInMemoryBookRepo`. -/
def initialBookRepo : BookRepo :=
  { seq := 0, books := [] }

/-- Go `InMemoryBookRepo.Create` (identical in both variants): always succeeds,
assigning `seq+1` and storing the mutated book. -/
def createBook (r : BookRepo) (b : Book) : Option String × Book × BookRepo :=
  let id := r.seq + 1
  let b2 := { b with id := id }
  (none, b2, { seq := id, books := minsert r.books id b2 })

/-- Go `InMemoryBookRepo.Update`, first part_005 variant (lines 133-142). -/
def updateBookA (r : BookRepo) (b : Book) : Option String × BookRepo :=
  match mlookup r.books b.id with
  | none => (some "libro no encontrado para actualizar", r)
  | some _ => (none, { r with books := minsert r.books b.id b })

/-- Go `InMemoryBookRepo.FindByID` (identical in both variants). -/
def findBookByID (r : BookRepo) (id : Int) : Option Book × Option String :=
  (mlookup r.books id, none)

/-- Go `bookHasAllTags` (part_005 lines 212-224): lowercased set of the book's
tags must contain every lowercased filter tag. -/
def bookHasAllTags (b : Book) (tags : List String) : Bool :=
  let tagSet := b.tags.map goToLower
  tags.all (fun t => tagSet.contains (goToLower t))

/-- The filter chain of `SearchByFilters` in the first part_005 variant
(lines 156-198), mirroring each `continue`.  A book is kept when no guard
fires; the last guard applies `bookHasAllTags` when the filter carries
tags. -/
def keepBookA (f : BookFilter) (b : Book) : Bool :=
  if b.active = false then false
  else if f.titleContains ≠ "" ∧
      goContains (goToLower b.title) (goToLower f.titleContains) = false then false
  else if f.authorContains ≠ "" ∧
      goContains (goToLower b.author) (goToLower f.authorContains) = false then false
  else if f.categoryTI ≠ "" ∧ goEqualFold b.categoryTI f.categoryTI = false then false
  else if 0 < f.yearFrom ∧ b.year < f.yearFrom then false
  else if 0 < f.yearTo ∧ f.yearTo < b.year then false
  else if f.tags ≠ [] ∧ bookHasAllTags b f.tags = false then false
  else true

/-- The filter chain of `SearchByFilters` in the second part_005 variant
(lines 482-527), which leaves the tag filter unimplemented. -/
def keepBookB (f : BookFilter) (b : Book) : Bool :=
  if b.active = false then false
  else if f.titleContains ≠ "" ∧
      goContains (goToLower b.title) (goToLower f.titleContains) = false then false
  else if f.authorContains ≠ "" ∧
      goContains (goToLower b.author) (goToLower f.authorContains) = false then false
  else if f.categoryTI ≠ "" ∧ goEqualFold b.categoryTI f.categoryTI = false then false
  else if 0 < f.yearFrom ∧ b.year < f.yearFrom then false
  else if 0 < f.yearTo ∧ f.yearTo < b.year then false
  else true

/-- Go `InMemoryBookRepo.SearchByFilters`, first part_005 variant. -/
def searchByFiltersA (r : BookRepo) (f : BookFilter) : List Book × Option String :=
  ((r.books.map Prod.snd).filter (keepBookA f), none)

/-- Go `InMemoryBookRepo.SearchByFilters`, second part_005 variant. -/
def searchByFiltersB (r : BookRepo) (f : BookFilter) : List Book × Option String :=
  ((r.books.map Prod.snd).filter (keepBookB f), none)

/-
  ===========================================
  In-memory access-log repository and statistics
  (src/unnamed/part_005 and src/internal/usecase/book_service.go)
  ===========================================
-/

/-- Go `db.InMemoryAccessLogRepo`. -/
structure AccessLogRepo where
  seq : Int
  events : List (Int × AccessEvent)
deriving DecidableEq

/-- Go `NewInMemoryAccessLogRepo`. -/
def initialAccessLogRepo : AccessLogRepo :=
  { seq := 0, events := [] }

/-- Go `InMemoryAccessLogRepo.Store` (identical in both variants): always
succeeds, assigning `seq+1` and storing the mutated event. -/
def storeEvent (r : AccessLogRepo) (ev : AccessEvent) :
    Option String × AccessEvent × AccessLogRepo :=
  let id := r.seq + 1
  let ev2 := { ev with id := id }
  (none, ev2, { seq := id, events := minsert r.events id ev2 })

/-- Go `InMemoryAccessLogRepo.ListByBook` (identical in both variants): all
stored events whose book id matches; the error is always nil. -/
def listByBook (r : AccessLogRepo) (b : Int) : List AccessEvent × Option String :=
  ((r.events.map Prod.snd).filter (fun ev => decide (ev.bookID = b)), none)

/-- Reading a Go `map[AccessType]int` (zero for absent keys). -/
def statsGet (m : List (String × Int)) (k : String) : Int :=
  (mlookup m k).getD 0

/-- One iteration of the counting loop in `BuildAccessStatsByBook`:
`stats[ev.AccessType()] = stats[ev.AccessType()] + 1`. -/
def statsStep (m : List (String × Int)) (ev : AccessEvent) : List (String × Int) :=
  minsert m ev.accessType (statsGet m ev.accessType + 1)

/-- The counting loop of `BuildAccessStatsByBook` over a list of events,
starting from the freshly made empty map. -/
def buildStats (evs : List AccessEvent) : List (String × Int) :=
  evs.foldl statsStep []

/-- Go `BookService.BuildAccessStatsByBook` (book_service.go lines 147-163):
fetches the book's events and counts them by stored access type.  It
consults only the access-log repository. -/
def buildAccessStatsByBook (r : AccessLogRepo) (b : Int) :
    Except String (List (String × Int)) :=
  match listByBook r b with
  | (_, some e) => Except.error e
  | (evs, none) => Except.ok (buildStats evs)

/-
  ===========================================
  Operation sequences against a store instance
  ===========================================
-/

/-- A call against the user store (the two mutating operations). -/
inductive UserOp where
  | create (u : User)
  | update (u : User)

/-- Effect of one user-store call on the store state (variant-A update). -/
def stepUser (r : UserRepo) : UserOp → UserRepo
  | UserOp.create u => (createUser r u).2.2
  | UserOp.update u => (updateUserA r u).2

/-- Store state after a sequence of calls. -/
def runUser : List UserOp → UserRepo → UserRepo
  | [], r => r
  | op :: rest, r => runUser rest (stepUser r op)

/-- The identifiers assigned by the successful `Create` calls of a
sequence, in call order. -/
def runUserIds : List UserOp → UserRepo → List Int
  | [], _ => []
  | UserOp.create u :: rest, r =>
    match (createUser r u).1 with
    | none => ((createUser r u).2.1).id :: runUserIds rest (createUser r u).2.2
    | some _ => runUserIds rest (createUser r u).2.2
  | UserOp.update u :: rest, r => runUserIds rest (updateUserA r u).2

/-- A call against the book store. -/
inductive BookOp where
  | create (b : Book)
  | update (b : Book)

/-- Effect of one book-store call on the store state (variant-A update). -/
def stepBook (r : BookRepo) : BookOp → BookRepo
  | BookOp.create b => (createBook r b).2.2
  | BookOp.update b => (updateBookA r b).2

/-- Book-store state after a sequence of calls. -/
def runBook : List BookOp → BookRepo → BookRepo
  | [], r => r
  | op :: rest, r => runBook rest (stepBook r op)

/-- The identifiers assigned by the (always successful) book `Create`
calls of a sequence, in call order. -/
def runBookIds : List BookOp → BookRepo → List Int
  | [], _ => []
  | BookOp.create b :: rest, r =>
    ((createBook r b).2.1).id :: runBookIds rest (createBook r b).2.2
  | BookOp.update b :: rest, r => runBookIds rest (updateBookA r b).2

/-- The consecutive identifiers `s+1, s+2, ..., s+k`. -/
def idsFrom (s : Int) : Nat → List Int
  | 0 => []
  | k + 1 => (s + 1) :: idsFrom (s + 1) k

/-
  ===========================================
  The int64 wraparound of the sequence counter
  ===========================================
-/

/-- Reduction of an integer to the `int64` range by two's-complement
wraparound, exactly Go's overflow behaviour for `int64`. -/
def wrap64 (n : Int) : Int :=
  (n + 2 ^ 63) % 2 ^ 64 - 2 ^ 63

/-- Go `InMemoryUserRepo.Create` with the `int64` wraparound of
`r.seq++` (`nextID`) made explicit: identical to `createUser` except
that the incremented counter is reduced to the `int64` range. -/
def createUserW (r : UserRepo) (u : User) : Option String × User × UserRepo :=
  if (mlookup r.emailIndex u.email).isSome then
    (some "ya existe un usuario con ese email", u, r)
  else
    let id := wrap64 (r.seq + 1)
    let u2 := { u with id := id }
    (none, u2,
      { seq := id, users := minsert r.users id u2,
        emailIndex := minsert r.emailIndex u2.email id })

/-- Store state after a sequence of wrapping `Create` calls. -/
def runRepoW : List User → UserRepo → UserRepo
  | [], r => r
  | u :: rest, r => runRepoW rest (createUserW r u).2.2

/-- The identifiers assigned by the successful wrapping `Create` calls
of a sequence, in call order. -/
def runCreatesW : List User → UserRepo → List Int
  | [], _ => []
  | u :: rest, r =>
    match (createUserW r u).1 with
    | none => ((createUserW r u).2.1).id :: runCreatesW rest (createUserW r u).2.2
    | some _ => runCreatesW rest (createUserW r u).2.2

/-- The identifiers the wrapping counter hands out: `wrap64 (s+1)`,
`wrap64 (wrap64 (s+1) + 1)`, and so on. -/
def wrapIds (s : Int) : Nat → List Int
  | 0 => []
  | k + 1 => wrap64 (s + 1) :: wrapIds (wrap64 (s + 1)) k

/-- The sequence counter after `k` successful wrapping increments. -/
def seqIter (s : Int) : Nat → Int
  | 0 => s
  | k + 1 => seqIter (wrap64 (s + 1)) k

/-- The `i`-th user of the overflow scenario: pairwise distinct emails
(`i` repetitions of `a`), so every `Create` succeeds. -/
def mkU (i : Nat) : User :=
  { id := 0, name := "u", email := String.mk (List.replicate i (Char.ofNat 97)),
    role := "ADMIN", active := true, createdAt := 0 }

/-- The interval of naturals `[a, a+b)`. -/
def natSeg (a : Nat) : Nat → List Nat
  | 0 => []
  | b + 1 => a :: natSeg (a + 1) b

/-- The users `mkU a, mkU (a+1), ..., mkU (a+b-1)`. -/
def usersSeg (a b : Nat) : List User :=
  (natSeg a b).map mkU

/-- Every email in the store index is shorter than `a` characters. -/
def keysShort (r : UserRepo) (a : Nat) : Prop :=
  ∀ e id, mlookup r.emailIndex e = some id → e.data.length < a

/-- The largest `int64`, `2^63 - 1`. -/
def halfMax : Nat := 9223372036854775807

/-
  ===========================================
  Sample entities used by witnesses and counterexamples
  ===========================================
-/

/-- A sample user value (as produced by a domain constructor, id still 0). -/
def uSample : User :=
  { id := 0, name := "Ana", email := "ana@x.com", role := "ADMIN",
    active := true, createdAt := 0 }

/-- A sample book value. -/
def bSample : Book :=
  { id := 0, title := "Go Basics", author := "Alan", year := 2019,
    isbn := "111", categoryTI := "BACKEND", tags := ["go"],
    active := true, createdAt := 0 }

/-- A sample access event value. -/
def evSample : AccessEvent :=
  { id := 0, bookID := 7, userID := 1, accessType := "LECTURA", timestamp := 0 }

/-- The sample book as stored (identifier 1). -/
def bSample1 : Book := { bSample with id := 1 }

/-- A one-book store: the sample book created on a fresh book store. -/
def rBook1 : BookRepo := (createBook initialBookRepo bSample).2.2

/-- The all-absent filter. -/
def emptyFilter : BookFilter :=
  { titleContains := "", authorContains := "", categoryTI := "",
    yearFrom := 0, yearTo := 0, tags := [] }

/-- A filter asking only for tag `go`. -/
def fTagGo : BookFilter := { emptyFilter with tags := ["go"] }

/-- A filter asking only for tag `db`. -/
def fTagDb : BookFilter := { emptyFilter with tags := ["db"] }

/-- Five stored access events: three `LECTURA` and two `APERTURA` for
book 7, and one `LECTURA` for book 9. -/
def accessRepo5 : AccessLogRepo :=
  { seq := 6,
    events :=
      [ (1, { id := 1, bookID := 7, userID := 1, accessType := "LECTURA", timestamp := 0 }),
        (2, { id := 2, bookID := 7, userID := 1, accessType := "LECTURA", timestamp := 0 }),
        (3, { id := 3, bookID := 7, userID := 2, accessType := "LECTURA", timestamp := 0 }),
        (4, { id := 4, bookID := 7, userID := 2, accessType := "APERTURA", timestamp := 0 }),
        (5, { id := 5, bookID := 7, userID := 1, accessType := "APERTURA", timestamp := 0 }),
        (6, { id := 6, bookID := 9, userID := 1, accessType := "LECTURA", timestamp := 0 }) ] }

/-- The statistics map built for book 7 of `accessRepo5`. -/
def stats5 : List (String × Int) := [("LECTURA", 3), ("APERTURA", 2)]

/-- Two users as the non-normalizing `NewUser` of models.go builds them:
emails keep their original case. -/
def uModelA : User :=
  { id := 0, name := "Ana", email := "Ana@X.com", role := "ADMIN",
    active := true, createdAt := 0 }

/-- Second models.go-style user whose email differs only by case. -/
def uModelB : User :=
  { id := 0, name := "Bob", email := "ana@x.com", role := "ADMIN",
    active := true, createdAt := 0 }

/-- The part_004 constructor output for raw email `Ana@X.com`. -/
def uV2A : User :=
  { id := 0, name := "Ana", email := "ana@x.com", role := "ADMIN",
    active := true, createdAt := 0 }

/-- The part_004 constructor output for raw email ` ANA@x.COM `. -/
def uV2B : User :=
  { id := 0, name := "Bob", email := "ana@x.com", role := "ADMIN",
    active := true, createdAt := 0 }

/-- Well-formedness of a user store reachable through the repository
operations: a nonnegative sequence, duplicate-free index keys, stored
ids in `[1, seq]`, every indexed id stored, and — the invariant of
claim C2 — every stored user id referenced by exactly one email-index
entry. -/
structure InvRepo (r : UserRepo) : Prop where
  seqNonneg : 0 ≤ r.seq
  nodupKeys : (keysOf r.emailIndex).Nodup
  idBounds : ∀ id, (mlookup r.users id).isSome = true → 1 ≤ id ∧ id ≤ r.seq
  indexDom : ∀ e id, mlookup r.emailIndex e = some id →
    (mlookup r.users id).isSome = true
  oneEmail : ∀ id, (mlookup r.users id).isSome = true →
    ∃ e, mlookup r.emailIndex e = some id ∧
      ∀ e2, mlookup r.emailIndex e2 = some id → e2 = e

/-- A user value for the C2 scenarios. -/
def uC2 : User :=
  { id := 0, name := "Ana", email := "a@x", role := "ADMIN",
    active := true, createdAt := 0 }

/-- The store after creating `uC2` on a fresh user store: seq 1, one
user, index `a@x ↦ 1`. -/
def rC2 : UserRepo := (createUser initialUserRepo uC2).2.2

/-- The stored user with its email changed to `b@x`. -/
def uC2upd : User :=
  { id := 1, name := "Ana", email := "b@x", role := "ADMIN",
    active := true, createdAt := 0 }

theorem mlookup_minsert {α β : Type} [DecidableEq α]
    (m : List (α × β)) (k : α) (v : β) (k' : α) :
    mlookup (minsert m k v) k' = if k' = k then some v else mlookup m k' := by
  induction m with
  | nil => simp [minsert, mlookup]
  | cons hd tl ih =>
    obtain ⟨a, b⟩ := hd
    by_cases hka : k = a
    · subst hka
      by_cases hk' : k' = k <;> simp [minsert, mlookup, hk']
    · rw [minsert, if_neg hka]
      by_cases hk' : k' = a
      · subst hk'
        rw [mlookup, if_pos rfl, if_neg (fun h => hka h.symm), mlookup, if_pos rfl]
      · rw [mlookup, if_neg hk', ih, mlookup, if_neg hk']

theorem keysOf_nil {α β : Type} : keysOf ([] : List (α × β)) = [] := rfl

theorem keysOf_cons {α β : Type} (a : α) (b : β) (tl : List (α × β)) :
    keysOf ((a, b) :: tl) = a :: keysOf tl := rfl

theorem mlookup_mdelete {α β : Type} [DecidableEq α]
    (m : List (α × β)) (k : α) (k' : α) :
    mlookup (mdelete m k) k' = if k' = k then none else mlookup m k' := by
  induction m with
  | nil => simp [mdelete, mlookup]
  | cons hd tl ih =>
    obtain ⟨a, b⟩ := hd
    by_cases hka : k = a
    · subst hka
      rw [mdelete, if_pos rfl, ih]
      by_cases hk' : k' = k
      · simp [hk']
      · simp [hk', mlookup]
    · rw [mdelete, if_neg hka]
      by_cases hk' : k' = a
      · subst hk'
        rw [mlookup, if_pos rfl, if_neg (fun h => hka h.symm), mlookup, if_pos rfl]
      · rw [mlookup, if_neg hk', ih, mlookup, if_neg hk']

theorem mlookup_mem {α β : Type} [DecidableEq α]
    {m : List (α × β)} {k : α} {v : β} (h : mlookup m k = some v) :
    (k, v) ∈ m := by
  induction m with
  | nil => simp [mlookup] at h
  | cons hd tl ih =>
    obtain ⟨a, b⟩ := hd
    by_cases hk : k = a
    · subst hk
      rw [mlookup, if_pos rfl] at h
      obtain rfl : b = v := Option.some.inj h
      exact List.mem_cons_self _ _
    · rw [mlookup, if_neg hk] at h
      exact List.mem_cons_of_mem _ (ih h)

theorem mem_mlookup {α β : Type} [DecidableEq α]
    {m : List (α × β)} {k : α} {v : β}
    (hnd : (keysOf m).Nodup) (h : (k, v) ∈ m) :
    mlookup m k = some v := by
  induction m with
  | nil => simp at h
  | cons hd tl ih =>
    obtain ⟨a, b⟩ := hd
    rw [keysOf_cons, List.nodup_cons] at hnd
    rcases List.mem_cons.mp h with h1 | h1
    · obtain ⟨hk, hv⟩ := Prod.mk.injEq .. ▸ h1
      subst hk; subst hv
      rw [mlookup, if_pos rfl]
    · have hka : k ≠ a := by
        intro hk
        subst hk
        exact hnd.1 (List.mem_map_of_mem Prod.fst h1)
      rw [mlookup, if_neg hka]
      exact ih hnd.2 h1

theorem mem_keys_minsert {α β : Type} [DecidableEq α]
    {m : List (α × β)} {k : α} {v : β} {x : α}
    (h : x ∈ keysOf (minsert m k v)) :
    x ∈ keysOf m ∨ x = k := by
  induction m with
  | nil =>
    rw [minsert, keysOf_cons] at h
    rcases List.mem_cons.mp h with h1 | h1
    · right; exact h1
    · left; exact h1
  | cons hd tl ih =>
    obtain ⟨a, b⟩ := hd
    by_cases hka : k = a
    · subst hka
      rw [minsert, if_pos rfl, keysOf_cons] at h
      rcases List.mem_cons.mp h with h1 | h1
      · right; exact h1
      · left; rw [keysOf_cons]; exact List.mem_cons_of_mem _ h1
    · rw [minsert, if_neg hka, keysOf_cons] at h
      rcases List.mem_cons.mp h with h1 | h1
      · left; rw [keysOf_cons]; exact h1 ▸ List.mem_cons_self _ _
      · rcases ih h1 with h2 | h2
        · left; rw [keysOf_cons]; exact List.mem_cons_of_mem _ h2
        · right; exact h2

theorem nodup_keys_minsert {α β : Type} [DecidableEq α]
    {m : List (α × β)} (k : α) (v : β)
    (hnd : (keysOf m).Nodup) :
    (keysOf (minsert m k v)).Nodup := by
  induction m with
  | nil => simp [minsert, keysOf]
  | cons hd tl ih =>
    obtain ⟨a, b⟩ := hd
    rw [keysOf_cons, List.nodup_cons] at hnd
    by_cases hka : k = a
    · subst hka
      rw [minsert, if_pos rfl, keysOf_cons, List.nodup_cons]
      exact hnd
    · rw [minsert, if_neg hka, keysOf_cons, List.nodup_cons]
      refine ⟨fun hmem => ?_, ih hnd.2⟩
      rcases mem_keys_minsert hmem with h1 | h1
      · exact hnd.1 h1
      · exact hka h1.symm

theorem mem_keys_mdelete {α β : Type} [DecidableEq α]
    {m : List (α × β)} {k : α} {x : α}
    (h : x ∈ keysOf (mdelete m k)) :
    x ∈ keysOf m := by
  induction m with
  | nil => rw [mdelete] at h; exact h
  | cons hd tl ih =>
    obtain ⟨a, b⟩ := hd
    by_cases hka : k = a
    · subst hka
      rw [mdelete, if_pos rfl] at h
      rw [keysOf_cons]
      exact List.mem_cons_of_mem _ (ih h)
    · rw [mdelete, if_neg hka, keysOf_cons] at h
      rw [keysOf_cons]
      rcases List.mem_cons.mp h with h1 | h1
      · exact h1 ▸ List.mem_cons_self _ _
      · exact List.mem_cons_of_mem _ (ih h1)

theorem nodup_keys_mdelete {α β : Type} [DecidableEq α]
    {m : List (α × β)} (k : α)
    (hnd : (keysOf m).Nodup) :
    (keysOf (mdelete m k)).Nodup := by
  induction m with
  | nil => exact hnd
  | cons hd tl ih =>
    obtain ⟨a, b⟩ := hd
    rw [keysOf_cons, List.nodup_cons] at hnd
    by_cases hka : k = a
    · subst hka
      rw [mdelete, if_pos rfl]
      exact ih hnd.2
    · rw [mdelete, if_neg hka, keysOf_cons, List.nodup_cons]
      exact ⟨fun hmem => hnd.1 (mem_keys_mdelete hmem), ih hnd.2⟩

theorem createUser_of_dup {r : UserRepo} {u : User}
    (h : (mlookup r.emailIndex u.email).isSome = true) :
    createUser r u = (some "ya existe un usuario con ese email", u, r) := by
  simp [createUser, h]

theorem createUser_of_fresh {r : UserRepo} {u : User}
    (h : (mlookup r.emailIndex u.email).isSome = false) :
    createUser r u = (none, { u with id := r.seq + 1 },
      { seq := r.seq + 1,
        users := minsert r.users (r.seq + 1) { u with id := r.seq + 1 },
        emailIndex := minsert r.emailIndex u.email (r.seq + 1) }) := by
  simp [createUser, h]

theorem updateUserA_seq (r : UserRepo) (u : User) :
    ((updateUserA r u).2).seq = r.seq := by
  cases h : mlookup r.users u.id <;> simp [updateUserA, h]

theorem updateBookA_seq (r : BookRepo) (b : Book) :
    ((updateBookA r b).2).seq = r.seq := by
  cases h : mlookup r.books b.id <;> simp [updateBookA, h]

theorem lt_of_mem_idsFrom : ∀ (k : Nat) (s x : Int), x ∈ idsFrom s k → s < x := by
  intro k
  induction k with
  | zero => intro s x h; simp [idsFrom] at h
  | succ n ih =>
    intro s x h
    rw [idsFrom] at h
    rcases List.mem_cons.mp h with h1 | h1
    · omega
    · have := ih (s + 1) x h1; omega

theorem sorted_idsFrom : ∀ (k : Nat) (s : Int),
    List.Sorted (fun a b => a < b) (idsFrom s k) := by
  intro k
  induction k with
  | zero => intro s; simp [idsFrom]
  | succ n ih =>
    intro s
    rw [idsFrom, List.sorted_cons]
    exact ⟨fun b hb => lt_of_mem_idsFrom n (s + 1) b hb, ih (s + 1)⟩

theorem runUser_users_assigned : ∀ (ops : List UserOp) (r : UserRepo) (id : Int),
    (mlookup (runUser ops r).users id).isSome = true →
    (mlookup r.users id).isSome = true ∨ id ∈ runUserIds ops r := by
  intro ops
  induction ops with
  | nil => intro r id h; left; exact h
  | cons op rest ih =>
    intro r id h
    cases op with
    | create u =>
      rw [runUser] at h
      by_cases hb : (mlookup r.emailIndex u.email).isSome = true
      · have hc := createUser_of_dup hb
        rw [stepUser, hc] at h
        rcases ih r id h with h1 | h1
        · left; exact h1
        · right; simp only [runUserIds, hc]; exact h1
      · have hc := createUser_of_fresh (by simpa using hb)
        rw [stepUser] at h
        rcases ih _ id h with h1 | h1
        · simp only [hc] at h1
          rw [mlookup_minsert] at h1
          by_cases hid : id = r.seq + 1
          · right
            simp only [runUserIds, hc]
            exact hid ▸ List.mem_cons_self _ _
          · rw [if_neg hid] at h1
            left; exact h1
        · right
          simp only [runUserIds, hc] at h1 ⊢
          exact List.mem_cons_of_mem _ h1
    | update u =>
      rw [runUser] at h
      simp only [stepUser] at h
      cases hm : mlookup r.users u.id with
      | none =>
        simp only [updateUserA, hm] at h
        rcases ih r id h with h1 | h1
        · left; exact h1
        · right; simp only [runUserIds, updateUserA, hm]; exact h1
      | some w =>
        simp only [updateUserA, hm] at h
        rcases ih _ id h with h1 | h1
        · have h2 : (mlookup (minsert r.users u.id u) id).isSome = true := h1
          rw [mlookup_minsert] at h2
          by_cases hid : id = u.id
          · left; rw [hid, hm]; rfl
          · rw [if_neg hid] at h2
            left; exact h2
        · right
          simp only [runUserIds, updateUserA, hm]
          exact h1

theorem runBook_books_assigned : ∀ (ops : List BookOp) (r : BookRepo) (id : Int),
    (mlookup (runBook ops r).books id).isSome = true →
    (mlookup r.books id).isSome = true ∨ id ∈ runBookIds ops r := by
  intro ops
  induction ops with
  | nil => intro r id h; left; exact h
  | cons op rest ih =>
    intro r id h
    cases op with
    | create b =>
      rw [runBook] at h
      simp only [stepBook] at h
      rcases ih _ id h with h1 | h1
      · have h2 : (mlookup (minsert r.books (r.seq + 1) { b with id := r.seq + 1 })
            id).isSome = true := h1
        rw [mlookup_minsert] at h2
        by_cases hid : id = r.seq + 1
        · right
          simp only [runBookIds, createBook]
          exact hid ▸ List.mem_cons_self _ _
        · rw [if_neg hid] at h2
          left; exact h2
      · right
        simp only [runBookIds]
        exact List.mem_cons_of_mem _ h1
    | update b =>
      rw [runBook] at h
      simp only [stepBook] at h
      cases hm : mlookup r.books b.id with
      | none =>
        simp only [updateBookA, hm] at h
        rcases ih r id h with h1 | h1
        · left; exact h1
        · right; simp only [runBookIds, updateBookA, hm]; exact h1
      | some w =>
        simp only [updateBookA, hm] at h
        rcases ih _ id h with h1 | h1
        · have h2 : (mlookup (minsert r.books b.id b) id).isSome = true := h1
          rw [mlookup_minsert] at h2
          by_cases hid : id = b.id
          · left; rw [hid, hm]; rfl
          · rw [if_neg hid] at h2
            left; exact h2
        · right
          simp only [runBookIds, updateBookA, hm]
          exact h1

/-- Claim C7: `Update` on an entity whose identifier is absent from the
store fails with the not-found error and returns the store state (map,
index and sequence counter) completely unchanged; shown for the cited
variant-A user and book updates. -/
theorem claim7_thm :
    (∀ (r : UserRepo) (u : User), mlookup r.users u.id = none →
      updateUserA r u = (some "usuario no encontrado para actualizar", r)) ∧
    (∀ (r : BookRepo) (b : Book), mlookup r.books b.id = none →
      updateBookA r b = (some "libro no encontrado para actualizar", r)) := by
  constructor
  · intro r u h
    simp [updateUserA, h]
  · intro r b h
    simp [updateBookA, h]

/-- Witness for C7: updating a fresh store fails with not-found and leaves
the store untouched. -/
theorem claim7_witness :
    updateUserA initialUserRepo uSample =
      (some "usuario no encontrado para actualizar", initialUserRepo) ∧
    updateBookA initialBookRepo bSample =
      (some "libro no encontrado para actualizar", initialBookRepo) :=
  ⟨claim7_thm.1 initialUserRepo uSample rfl,
   claim7_thm.2 initialBookRepo bSample rfl⟩

/-- Claim C8: `FindByID` with an identifier never assigned by `Create`
over any sequence of store calls returns the absent pair `(nil, nil)` —
no entity and no error — for both the user and the book store. -/
theorem claim8_thm :
    (∀ (ops : List UserOp) (id : Int), id ∉ runUserIds ops initialUserRepo →
      findUserByID (runUser ops initialUserRepo) id = (none, none)) ∧
    (∀ (ops : List BookOp) (id : Int), id ∉ runBookIds ops initialBookRepo →
      findBookByID (runBook ops initialBookRepo) id = (none, none)) := by
  constructor
  · intro ops id hid
    rw [findUserByID]
    cases hm : mlookup (runUser ops initialUserRepo).users id with
    | none => rfl
    | some w =>
      rcases runUser_users_assigned ops initialUserRepo id (by rw [hm]; rfl)
          with h1 | h1
      · exact absurd h1 (by rw [show initialUserRepo.users = [] from rfl]; simp [mlookup])
      · exact absurd h1 hid
  · intro ops id hid
    rw [findBookByID]
    cases hm : mlookup (runBook ops initialBookRepo).books id with
    | none => rfl
    | some w =>
      rcases runBook_books_assigned ops initialBookRepo id (by rw [hm]; rfl)
          with h1 | h1
      · exact absurd h1 (by rw [show initialBookRepo.books = [] from rfl]; simp [mlookup])
      · exact absurd h1 hid

/-- Witness for C8: identifier 5 is never assigned by a one-create
sequence, and `FindByID 5` then yields the absent pair. -/
theorem claim8_witness :
    findUserByID (runUser [UserOp.create uSample] initialUserRepo) 5 =
      (none, none) ∧
    findBookByID (runBook [BookOp.create bSample] initialBookRepo) 5 =
      (none, none) :=
  ⟨claim8_thm.1 [UserOp.create uSample] 5 (by decide),
   claim8_thm.2 [BookOp.create bSample] 5 (by decide)⟩

/-- Claim C10: a successful `Create` (and `Store` for access events)
returns with a nil error, the entity argument updated so that only its
identifier field changed — set to the fresh sequence value — and the
stored map entry for that identifier is exactly that updated entity. -/
theorem claim10_thm :
    (∀ (r : UserRepo) (u : User), mlookup r.emailIndex u.email = none →
      (createUser r u).1 = none ∧
      ((createUser r u).2.1).id = r.seq + 1 ∧
      ((createUser r u).2.1).name = u.name ∧
      ((createUser r u).2.1).email = u.email ∧
      ((createUser r u).2.1).role = u.role ∧
      ((createUser r u).2.1).active = u.active ∧
      ((createUser r u).2.1).createdAt = u.createdAt ∧
      mlookup ((createUser r u).2.2).users (r.seq + 1) = some (createUser r u).2.1) ∧
    (∀ (r : BookRepo) (b : Book),
      (createBook r b).1 = none ∧
      ((createBook r b).2.1).id = r.seq + 1 ∧
      ((createBook r b).2.1).title = b.title ∧
      ((createBook r b).2.1).author = b.author ∧
      ((createBook r b).2.1).year = b.year ∧
      ((createBook r b).2.1).isbn = b.isbn ∧
      ((createBook r b).2.1).categoryTI = b.categoryTI ∧
      ((createBook r b).2.1).tags = b.tags ∧
      ((createBook r b).2.1).active = b.active ∧
      ((createBook r b).2.1).createdAt = b.createdAt ∧
      mlookup ((createBook r b).2.2).books (r.seq + 1) = some (createBook r b).2.1) ∧
    (∀ (r : AccessLogRepo) (ev : AccessEvent),
      (storeEvent r ev).1 = none ∧
      ((storeEvent r ev).2.1).id = r.seq + 1 ∧
      ((storeEvent r ev).2.1).bookID = ev.bookID ∧
      ((storeEvent r ev).2.1).userID = ev.userID ∧
      ((storeEvent r ev).2.1).accessType = ev.accessType ∧
      ((storeEvent r ev).2.1).timestamp = ev.timestamp ∧
      mlookup ((storeEvent r ev).2.2).events (r.seq + 1) = some (storeEvent r ev).2.1) := by
  refine ⟨fun r u h => ?_, fun r b => ?_, fun r ev => ?_⟩
  · have hc := createUser_of_fresh (by rw [h]; rfl)
    rw [hc]
    simp [mlookup_minsert]
  · simp [createBook, mlookup_minsert]
  · simp [storeEvent, mlookup_minsert]

/-- Witness for C10: creating the sample user in the fresh store succeeds
and stores the entity under identifier 1. -/
theorem claim10_witness :
    (createUser initialUserRepo uSample).1 = none ∧
    ((createUser initialUserRepo uSample).2.1).id = initialUserRepo.seq + 1 ∧
    ((createUser initialUserRepo uSample).2.1).name = uSample.name ∧
    ((createUser initialUserRepo uSample).2.1).email = uSample.email ∧
    ((createUser initialUserRepo uSample).2.1).role = uSample.role ∧
    ((createUser initialUserRepo uSample).2.1).active = uSample.active ∧
    ((createUser initialUserRepo uSample).2.1).createdAt = uSample.createdAt ∧
    mlookup ((createUser initialUserRepo uSample).2.2).users
      (initialUserRepo.seq + 1) = some (createUser initialUserRepo uSample).2.1 :=
  claim10_thm.1 initialUserRepo uSample rfl

theorem keepBookA_iff (f : BookFilter) (b : Book) :
    keepBookA f b = true ↔
      (b.active = true ∧
       (f.titleContains ≠ "" →
         goContains (goToLower b.title) (goToLower f.titleContains) = true) ∧
       (f.authorContains ≠ "" →
         goContains (goToLower b.author) (goToLower f.authorContains) = true) ∧
       (f.categoryTI ≠ "" → goEqualFold b.categoryTI f.categoryTI = true) ∧
       (0 < f.yearFrom → f.yearFrom ≤ b.year) ∧
       (0 < f.yearTo → b.year ≤ f.yearTo) ∧
       (f.tags ≠ [] → bookHasAllTags b f.tags = true)) := by
  unfold keepBookA
  split_ifs with h1 h2 h3 h4 h5 h6 h7 <;>
    constructor <;> intro hh <;>
    simp_all [Bool.not_eq_false, not_lt] <;> omega

theorem keepBookB_iff (f : BookFilter) (b : Book) :
    keepBookB f b = true ↔
      (b.active = true ∧
       (f.titleContains ≠ "" →
         goContains (goToLower b.title) (goToLower f.titleContains) = true) ∧
       (f.authorContains ≠ "" →
         goContains (goToLower b.author) (goToLower f.authorContains) = true) ∧
       (f.categoryTI ≠ "" → goEqualFold b.categoryTI f.categoryTI = true) ∧
       (0 < f.yearFrom → f.yearFrom ≤ b.year) ∧
       (0 < f.yearTo → b.year ≤ f.yearTo)) := by
  unfold keepBookB
  split_ifs with h1 h2 h3 h4 h5 h6 <;>
    constructor <;> intro hh <;>
    simp_all [Bool.not_eq_false, not_lt] <;> omega

/-- Claim C4: `SearchByFilters` (the cited variant, part_005 lines
156-198) returns exactly the stored books that are active and satisfy
every specified predicate — case-insensitive title and author substring,
case-insensitive category equality, `year >= YearFrom` when
`YearFrom > 0`, `year <= YearTo` when `YearTo > 0`, and the tag-superset
predicate of spec §4.2 when tags are given — while absent predicate
fields impose no constraint and inactive books never appear. -/
theorem claim4_thm (r : BookRepo) (f : BookFilter) (b : Book) :
    b ∈ (searchByFiltersA r f).1 ↔
      (b ∈ r.books.map Prod.snd ∧
       b.active = true ∧
       (f.titleContains ≠ "" →
         goContains (goToLower b.title) (goToLower f.titleContains) = true) ∧
       (f.authorContains ≠ "" →
         goContains (goToLower b.author) (goToLower f.authorContains) = true) ∧
       (f.categoryTI ≠ "" → goEqualFold b.categoryTI f.categoryTI = true) ∧
       (0 < f.yearFrom → f.yearFrom ≤ b.year) ∧
       (0 < f.yearTo → b.year ≤ f.yearTo) ∧
       (f.tags ≠ [] → bookHasAllTags b f.tags = true)) := by
  rw [searchByFiltersA]
  rw [show ((r.books.map Prod.snd).filter (keepBookA f), (none : Option String)).1 =
    (r.books.map Prod.snd).filter (keepBookA f) from rfl]
  rw [List.mem_filter, keepBookA_iff]

/-- Witness for C4: the sample book in a one-book store is found by the
empty filter. -/
theorem claim4_witness :
    bSample1 ∈ (searchByFiltersA rBook1 emptyFilter).1 :=
  (claim4_thm rBook1 emptyFilter bSample1).mpr (by decide)

theorem bookHasAllTags_iff (b : Book) (ts : List String) :
    bookHasAllTags b ts = true ↔
      ∀ t ∈ ts, (b.tags.map goToLower).contains (goToLower t) = true := by
  simp [bookHasAllTags, List.all_eq_true]

/-- Claim C3 (amended to the variant that implements the tag filter,
part_005 lines 156-198): a book is returned by that `SearchByFilters`
only if every filter tag, lowercased, occurs among the book's lowercased
tags; and `bookHasAllTags` holds exactly when the book's tag set is a
(possibly strict) superset of the lowercased filter tags, so a book
missing any filter tag is rejected. -/
theorem claim3_thm :
    (∀ (r : BookRepo) (f : BookFilter) (b : Book),
      b ∈ (searchByFiltersA r f).1 →
      ∀ t ∈ f.tags, (b.tags.map goToLower).contains (goToLower t) = true) ∧
    (∀ (b : Book) (ts : List String),
      bookHasAllTags b ts = true ↔
        ∀ t ∈ ts, (b.tags.map goToLower).contains (goToLower t) = true) := by
  constructor
  · intro r f b hmem t ht
    have hmem2 : b ∈ (r.books.map Prod.snd).filter (keepBookA f) := hmem
    have hk := (List.mem_filter.mp hmem2).2
    have hall : bookHasAllTags b f.tags = true := by
      refine ((keepBookA_iff f b).mp hk).2.2.2.2.2.2 ?_
      intro hnil
      rw [hnil] at ht
      cases ht
    exact (bookHasAllTags_iff b f.tags).mp hall t ht
  · exact bookHasAllTags_iff

/-- Counterexample for C3 as stated: the second `SearchByFilters` variant
(part_005 lines 482-527) ignores the tag filter, so the sample book —
whose tags lack the filter tag `db` — is still returned. -/
theorem claim3_counterexample :
    bSample1 ∈ (searchByFiltersB rBook1 fTagDb).1 ∧
    (bSample1.tags.map goToLower).contains (goToLower "db") = false ∧
    fTagDb.tags = ["db"] := by
  decide

/-- Witness for C3: the sample book matches the `go` tag filter under the
tag-filtering variant, and the tag is indeed among its tags. -/
theorem claim3_witness :
    (bSample1.tags.map goToLower).contains (goToLower "go") = true :=
  claim3_thm.1 rBook1 fTagGo bSample1 (by decide) "go" (by decide)

theorem statsGet_statsStep (m : List (String × Int)) (ev : AccessEvent) (t : String) :
    statsGet (statsStep m ev) t =
      if t = ev.accessType then statsGet m ev.accessType + 1 else statsGet m t := by
  rw [statsStep, statsGet, mlookup_minsert]
  by_cases h : t = ev.accessType <;> simp [h, statsGet]

theorem statsGet_foldl (evs : List AccessEvent) :
    ∀ (m : List (String × Int)) (t : String),
      statsGet (evs.foldl statsStep m) t =
        statsGet m t +
          ((evs.filter (fun ev => decide (ev.accessType = t))).length : Int) := by
  induction evs with
  | nil => intro m t; simp
  | cons ev rest ih =>
    intro m t
    rw [List.foldl_cons, ih (statsStep m ev) t, statsGet_statsStep, List.filter_cons]
    by_cases h : t = ev.accessType
    · rw [if_pos h]
      have hd : (decide (ev.accessType = t)) = true := by simp [h.symm]
      rw [hd, if_pos rfl]
      subst h
      rw [List.length_cons]
      push_cast
      ring
    · rw [if_neg h]
      have hd : (decide (ev.accessType = t)) = false := by
        simp only [decide_eq_false_iff_not]
        exact fun hh => h hh.symm
      rw [hd]
      simp

/-- Claim C5: every map returned by `BuildAccessStatsByBook b` counts,
for each access type `t`, exactly the stored events whose book id is `b`
and whose stored access type is `t`; events of other books contribute
nothing. -/
theorem claim5_thm (r : AccessLogRepo) (b : Int) (t : String)
    (m : List (String × Int)) (h : buildAccessStatsByBook r b = Except.ok m) :
    statsGet m t =
      (((r.events.map Prod.snd).filter
        (fun ev => decide (ev.bookID = b ∧ ev.accessType = t))).length : Int) := by
  rw [buildAccessStatsByBook, listByBook] at h
  obtain rfl : buildStats ((r.events.map Prod.snd).filter
      (fun ev => decide (ev.bookID = b))) = m := Except.ok.inj h
  have hfe : (r.events.map Prod.snd).filter
      (fun a => decide (a.accessType = t) && decide (a.bookID = b)) =
      (r.events.map Prod.snd).filter
      (fun ev => decide (ev.bookID = b ∧ ev.accessType = t)) := by
    apply List.filter_congr
    intro ev hev
    by_cases h1 : ev.bookID = b <;> by_cases h2 : ev.accessType = t <;>
      simp [h1, h2]
  rw [buildStats, statsGet_foldl, List.filter_filter]
  have hz : statsGet [] t = 0 := rfl
  rw [hz, zero_add, hfe]

/-- Witness for C5: on the sample log, book 7 counts three `LECTURA`
events. -/
theorem claim5_witness :
    statsGet stats5 "LECTURA" =
      (((accessRepo5.events.map Prod.snd).filter
        (fun ev => decide (ev.bookID = 7 ∧ ev.accessType = "LECTURA"))).length : Int) :=
  claim5_thm accessRepo5 7 "LECTURA" stats5 (by rfl)

/-- Claim C9: `BuildAccessStatsByBook` never fails — it always returns a
map with a nil error — and for a book id with no stored events (in
particular any id of a book that does not exist) it returns the empty
map; the statistics path consults only the access-log store, never the
book store. -/
theorem claim9_thm (r : AccessLogRepo) (b : Int) :
    (∃ m, buildAccessStatsByBook r b = Except.ok m) ∧
    ((∀ p ∈ r.events, (Prod.snd p).bookID ≠ b) →
      buildAccessStatsByBook r b = Except.ok []) := by
  constructor
  · exact ⟨_, rfl⟩
  · intro h
    rw [buildAccessStatsByBook, listByBook]
    have hnil : (r.events.map Prod.snd).filter (fun ev => decide (ev.bookID = b)) = [] := by
      rw [List.filter_eq_nil_iff]
      intro a ha
      rcases List.mem_map.mp ha with ⟨p, hp, rfl⟩
      simpa using h p hp
    rw [hnil]
    rfl

/-- Witness for C9: statistics for book 3 on the empty log store succeed
with the empty map. -/
theorem claim9_witness :
    buildAccessStatsByBook initialAccessLogRepo 3 = Except.ok [] :=
  (claim9_thm initialAccessLogRepo 3).2 (by simp [initialAccessLogRepo])

theorem newUserV2_email (n e ro : String) (t : Nat) (u : User)
    (h : newUserV2 n e ro t = Except.ok u) : u.email = goTrim (goToLower e) := by
  simp only [newUserV2] at h
  split_ifs at h
  obtain rfl := Except.ok.inj h
  rfl

/-- Claim C1 (amended): because the store's duplicate check compares
email strings verbatim, case-insensitivity holds exactly when user
emails were normalized by the lowercasing constructor of
src/unnamed/part_004.  For two users built by that constructor from raw
emails that agree up to case (and surrounding space), once the first is
successfully created, creating the second fails with the duplicate-key
error and returns the store unchanged. -/
theorem claim1_thm (r : UserRepo) (n1 e1 ro1 : String) (t1 : Nat)
    (n2 e2 ro2 : String) (t2 : Nat) (u1 u2 : User)
    (h1 : newUserV2 n1 e1 ro1 t1 = Except.ok u1)
    (h2 : newUserV2 n2 e2 ro2 t2 = Except.ok u2)
    (hcase : goTrim (goToLower e1) = goTrim (goToLower e2))
    (u1' : User) (r1 : UserRepo)
    (hc : createUser r u1 = (none, u1', r1)) :
    createUser r1 u2 = (some "ya existe un usuario con ese email", u2, r1) := by
  have he1 := newUserV2_email n1 e1 ro1 t1 u1 h1
  have he2 := newUserV2_email n2 e2 ro2 t2 u2 h2
  have hee : u2.email = u1.email := by rw [he1, he2, hcase]
  by_cases hdup : (mlookup r.emailIndex u1.email).isSome = true
  · rw [createUser_of_dup hdup] at hc
    simp at hc
  · have hf := createUser_of_fresh (by simpa using hdup)
    have hr1 : (createUser r u1).2.2 = r1 := by rw [hc]
    subst hr1
    apply createUser_of_dup
    simp only [hf]
    rw [hee, mlookup_minsert, if_pos rfl]
    rfl

/-- Counterexample for C1 as stated: with the models.go `NewUser`, which
does not lowercase, both creates succeed — the second does not fail with
the duplicate error although the emails differ only by case. -/
theorem claim1_counterexample :
    newUserModels "Ana" "Ana@X.com" "ADMIN" 0 = Except.ok uModelA ∧
    newUserModels "Bob" "ana@x.com" "ADMIN" 0 = Except.ok uModelB ∧
    goToLower uModelA.email = goToLower uModelB.email ∧
    uModelA.email ≠ uModelB.email ∧
    (createUser initialUserRepo uModelA).1 = none ∧
    (createUser (createUser initialUserRepo uModelA).2.2 uModelB).1 = none := by
  refine ⟨rfl, rfl, rfl, by decide, rfl, rfl⟩

/-- Witness for C1: after creating the first normalized user, creating
the second (raw email differing only by case and spacing) fails with the
duplicate error and leaves the store as it was. -/
theorem claim1_witness :
    createUser (createUser initialUserRepo uV2A).2.2 uV2B =
      (some "ya existe un usuario con ese email", uV2B,
        (createUser initialUserRepo uV2A).2.2) :=
  claim1_thm initialUserRepo "Ana" "Ana@X.com" "ADMIN" 0
    "Bob" " ANA@x.COM " "ADMIN" 0 uV2A uV2B rfl rfl rfl
    (createUser initialUserRepo uV2A).2.1
    (createUser initialUserRepo uV2A).2.2 rfl

theorem inv_initial : InvRepo initialUserRepo := by
  refine ⟨le_refl 0, List.nodup_nil, ?_, ?_, ?_⟩
  · intro id h
    simp [initialUserRepo, mlookup] at h
  · intro e id h
    simp [initialUserRepo, mlookup] at h
  · intro id h
    simp [initialUserRepo, mlookup] at h

theorem findStale_some {idx : List (String × Int)} {uid : Int} {em : String}
    {e : String} (h : findStale idx uid em = some e) :
    (e, uid) ∈ idx ∧ e ≠ em := by
  induction idx with
  | nil => cases h
  | cons hd tl ih =>
    obtain ⟨a, i⟩ := hd
    rw [findStale] at h
    by_cases hc : i = uid ∧ a ≠ em
    · rw [if_pos hc] at h
      obtain rfl := Option.some.inj h
      refine ⟨?_, hc.2⟩
      rw [hc.1]
      exact List.mem_cons_self _ _
    · rw [if_neg hc] at h
      exact ⟨List.mem_cons_of_mem _ (ih h).1, (ih h).2⟩

theorem findStale_isSome {idx : List (String × Int)} {uid : Int} {em : String}
    {e : String} (hmem : (e, uid) ∈ idx) (hne : e ≠ em) :
    (findStale idx uid em).isSome = true := by
  induction idx with
  | nil => cases hmem
  | cons hd tl ih =>
    obtain ⟨a, j⟩ := hd
    rw [findStale]
    by_cases hc : j = uid ∧ a ≠ em
    · rw [if_pos hc]; rfl
    · rw [if_neg hc]
      rcases List.mem_cons.mp hmem with h1 | h1
      · exfalso
        obtain ⟨h1a, h1b⟩ := Prod.mk.injEq .. ▸ h1
        exact hc ⟨h1b.symm, h1a ▸ hne⟩
      · exact ih h1

theorem inv_createUser (r : UserRepo) (u : User) (hInv : InvRepo r) :
    InvRepo (createUser r u).2.2 := by
  by_cases hdup : (mlookup r.emailIndex u.email).isSome = true
  · rw [createUser_of_dup hdup]
    exact hInv
  · have hb : (mlookup r.emailIndex u.email).isSome = false := by simpa using hdup
    have hnone : mlookup r.emailIndex u.email = none := by
      cases hx : mlookup r.emailIndex u.email
      · rfl
      · rw [hx] at hb; cases hb
    rw [createUser_of_fresh hb]
    constructor
    · show 0 ≤ r.seq + 1
      have := hInv.seqNonneg
      omega
    · show (keysOf (minsert r.emailIndex u.email (r.seq + 1))).Nodup
      exact nodup_keys_minsert _ _ hInv.nodupKeys
    · intro id hid
      have hid' : (mlookup (minsert r.users (r.seq + 1)
          { u with id := r.seq + 1 }) id).isSome = true := hid
      rw [mlookup_minsert] at hid'
      show 1 ≤ id ∧ id ≤ r.seq + 1
      by_cases hcase : id = r.seq + 1
      · have := hInv.seqNonneg
        omega
      · rw [if_neg hcase] at hid'
        have := hInv.idBounds id hid'
        omega
    · intro e id hmape
      have hmape' : mlookup (minsert r.emailIndex u.email (r.seq + 1)) e =
          some id := hmape
      rw [mlookup_minsert] at hmape'
      show (mlookup (minsert r.users (r.seq + 1)
          { u with id := r.seq + 1 }) id).isSome = true
      rw [mlookup_minsert]
      by_cases hcase : e = u.email
      · rw [if_pos hcase] at hmape'
        obtain rfl := Option.some.inj hmape'
        rw [if_pos rfl]
        rfl
      · rw [if_neg hcase] at hmape'
        have hsome := hInv.indexDom e id hmape'
        by_cases hcase2 : id = r.seq + 1
        · rw [if_pos hcase2]; rfl
        · rw [if_neg hcase2]; exact hsome
    · intro id hid
      have hid' : (mlookup (minsert r.users (r.seq + 1)
          { u with id := r.seq + 1 }) id).isSome = true := hid
      rw [mlookup_minsert] at hid'
      by_cases hcase : id = r.seq + 1
      · subst hcase
        refine ⟨u.email, ?_, ?_⟩
        · show mlookup (minsert r.emailIndex u.email (r.seq + 1)) u.email =
            some (r.seq + 1)
          rw [mlookup_minsert, if_pos rfl]
        · intro e2 he2
          have he2' : mlookup (minsert r.emailIndex u.email (r.seq + 1)) e2 =
              some (r.seq + 1) := he2
          rw [mlookup_minsert] at he2'
          by_cases hc2 : e2 = u.email
          · exact hc2
          · rw [if_neg hc2] at he2'
            have hdom := hInv.indexDom e2 (r.seq + 1) he2'
            have hbnd := hInv.idBounds (r.seq + 1) hdom
            omega
      · rw [if_neg hcase] at hid'
        obtain ⟨e0, he0, huniq⟩ := hInv.oneEmail id hid'
        have he0ne : e0 ≠ u.email := by
          intro hx
          rw [hx, hnone] at he0
          cases he0
        refine ⟨e0, ?_, ?_⟩
        · show mlookup (minsert r.emailIndex u.email (r.seq + 1)) e0 = some id
          rw [mlookup_minsert, if_neg he0ne]
          exact he0
        · intro e2 he2
          have he2' : mlookup (minsert r.emailIndex u.email (r.seq + 1)) e2 =
              some id := he2
          rw [mlookup_minsert] at he2'
          by_cases hc2 : e2 = u.email
          · rw [if_pos hc2] at he2'
            obtain hx := Option.some.inj he2'
            exact absurd hx.symm hcase
          · rw [if_neg hc2] at he2'
            exact huniq e2 he2'

theorem inv_updateUserB (r : UserRepo) (u : User) (hInv : InvRepo r)
    (hsafe : ∀ j, mlookup r.emailIndex u.email = some j → j = u.id) :
    InvRepo (updateUserB r u).2 := by
  unfold updateUserB
  by_cases h0 : u.id = 0
  · rw [if_pos h0]; exact hInv
  · rw [if_neg h0]
    cases hm : mlookup r.users u.id with
    | none => exact hInv
    | some w =>
      have husome : (mlookup r.users u.id).isSome = true := by rw [hm]; rfl
      cases hf : findStale r.emailIndex u.id u.email with
      | none =>
        constructor
        · exact hInv.seqNonneg
        · exact hInv.nodupKeys
        · intro id hid
          have hid' : (mlookup (minsert r.users u.id u) id).isSome = true := hid
          rw [mlookup_minsert] at hid'
          show 1 ≤ id ∧ id ≤ r.seq
          by_cases hc : id = u.id
          · subst hc
            exact hInv.idBounds u.id husome
          · rw [if_neg hc] at hid'
            exact hInv.idBounds id hid'
        · intro e id hmape
          have hmape' : mlookup r.emailIndex e = some id := hmape
          have hsome := hInv.indexDom e id hmape'
          show (mlookup (minsert r.users u.id u) id).isSome = true
          rw [mlookup_minsert]
          by_cases hc : id = u.id
          · rw [if_pos hc]; rfl
          · rw [if_neg hc]; exact hsome
        · intro id hid
          have hid' : (mlookup (minsert r.users u.id u) id).isSome = true := hid
          rw [mlookup_minsert] at hid'
          by_cases hc : id = u.id
          · subst hc
            exact hInv.oneEmail u.id husome
          · rw [if_neg hc] at hid'
            exact hInv.oneEmail id hid'
      | some e1 =>
        obtain ⟨hmem1, hne1⟩ := findStale_some hf
        have hlook1 : mlookup r.emailIndex e1 = some u.id :=
          mem_mlookup hInv.nodupKeys hmem1
        obtain ⟨es, hes, huniqs⟩ := hInv.oneEmail u.id husome
        have he1es : e1 = es := huniqs e1 hlook1
        have hnoneNew : mlookup r.emailIndex u.email = none := by
          cases hx : mlookup r.emailIndex u.email with
          | none => rfl
          | some j =>
            have hj := hsafe j hx
            subst hj
            have hx2 := huniqs u.email hx
            exact absurd (he1es.trans hx2.symm) hne1
        have hch : ∀ x, mlookup (minsert (mdelete r.emailIndex e1) u.email u.id) x =
            if x = u.email then some u.id
            else if x = e1 then none else mlookup r.emailIndex x := by
          intro x
          rw [mlookup_minsert, mlookup_mdelete]
        constructor
        · exact hInv.seqNonneg
        · exact nodup_keys_minsert _ _ (nodup_keys_mdelete _ hInv.nodupKeys)
        · intro id hid
          have hid' : (mlookup (minsert r.users u.id u) id).isSome = true := hid
          rw [mlookup_minsert] at hid'
          show 1 ≤ id ∧ id ≤ r.seq
          by_cases hc : id = u.id
          · subst hc
            exact hInv.idBounds u.id husome
          · rw [if_neg hc] at hid'
            exact hInv.idBounds id hid'
        · intro e id hmape
          have hmape' : mlookup (minsert (mdelete r.emailIndex e1) u.email u.id) e =
              some id := hmape
          rw [hch e] at hmape'
          show (mlookup (minsert r.users u.id u) id).isSome = true
          rw [mlookup_minsert]
          by_cases hce : e = u.email
          · rw [if_pos hce] at hmape'
            obtain hx := Option.some.inj hmape'
            rw [if_pos hx.symm]
            rfl
          · rw [if_neg hce] at hmape'
            by_cases hce1 : e = e1
            · rw [if_pos hce1] at hmape'; cases hmape'
            · rw [if_neg hce1] at hmape'
              have hsome := hInv.indexDom e id hmape'
              by_cases hc : id = u.id
              · rw [if_pos hc]; rfl
              · rw [if_neg hc]; exact hsome
        · intro id hid
          have hid' : (mlookup (minsert r.users u.id u) id).isSome = true := hid
          rw [mlookup_minsert] at hid'
          by_cases hc : id = u.id
          · subst hc
            refine ⟨u.email, ?_, ?_⟩
            · show mlookup (minsert (mdelete r.emailIndex e1) u.email u.id) u.email =
                some u.id
              rw [hch u.email, if_pos rfl]
            · intro e2 he2
              have he2' : mlookup (minsert (mdelete r.emailIndex e1) u.email u.id) e2 =
                  some u.id := he2
              rw [hch e2] at he2'
              by_cases hc2 : e2 = u.email
              · exact hc2
              · rw [if_neg hc2] at he2'
                by_cases hc3 : e2 = e1
                · rw [if_pos hc3] at he2'; cases he2'
                · rw [if_neg hc3] at he2'
                  have hx2 := huniqs e2 he2'
                  exact absurd (hx2.trans he1es.symm) hc3
          · rw [if_neg hc] at hid'
            obtain ⟨e0, he0, huniq0⟩ := hInv.oneEmail id hid'
            have he0ne : e0 ≠ u.email := by
              intro hx
              rw [hx, hnoneNew] at he0
              cases he0
            have he0ne1 : e0 ≠ e1 := by
              intro hx
              rw [hx, hlook1] at he0
              obtain hy := Option.some.inj he0
              exact hc hy.symm
            refine ⟨e0, ?_, ?_⟩
            · show mlookup (minsert (mdelete r.emailIndex e1) u.email u.id) e0 =
                some id
              rw [hch e0, if_neg he0ne, if_neg he0ne1]
              exact he0
            · intro e2 he2
              have he2' : mlookup (minsert (mdelete r.emailIndex e1) u.email u.id) e2 =
                  some id := he2
              rw [hch e2] at he2'
              by_cases hc2 : e2 = u.email
              · rw [if_pos hc2] at he2'
                obtain hy := Option.some.inj he2'
                exact absurd hy.symm hc
              · rw [if_neg hc2] at he2'
                by_cases hc3 : e2 = e1
                · rw [if_pos hc3] at he2'; cases he2'
                · rw [if_neg hc3] at he2'
                  exact huniq0 e2 he2'

theorem updateUserB_repair (r : UserRepo) (u : User) (e0 : String)
    (hInv : InvRepo r)
    (hex : (mlookup r.users u.id).isSome = true)
    (he0 : mlookup r.emailIndex e0 = some u.id)
    (hne : e0 ≠ u.email) :
    (updateUserB r u).1 = none ∧
    mlookup (updateUserB r u).2.emailIndex u.email = some u.id ∧
    mlookup (updateUserB r u).2.emailIndex e0 = none := by
  have h0 : ¬ u.id = 0 := by
    have := hInv.idBounds u.id hex
    omega
  unfold updateUserB
  rw [if_neg h0]
  cases hm : mlookup r.users u.id with
  | none => rw [hm] at hex; cases hex
  | some w =>
    have hmem := mlookup_mem he0
    have hfsome := findStale_isSome hmem hne
    cases hf : findStale r.emailIndex u.id u.email with
    | none => rw [hf] at hfsome; cases hfsome
    | some e1 =>
      obtain ⟨hmem1, hne1⟩ := findStale_some hf
      have hlook1 : mlookup r.emailIndex e1 = some u.id :=
        mem_mlookup hInv.nodupKeys hmem1
      obtain ⟨es, hes, huniqs⟩ := hInv.oneEmail u.id hex
      have he1e0 : e1 = e0 := (huniqs e1 hlook1).trans (huniqs e0 he0).symm
      subst he1e0
      refine ⟨rfl, ?_, ?_⟩
      · show mlookup (minsert (mdelete r.emailIndex e1) u.email u.id) u.email =
          some u.id
        rw [mlookup_minsert, if_pos rfl]
      · show mlookup (minsert (mdelete r.emailIndex e1) u.email u.id) e1 = none
        rw [mlookup_minsert, if_neg hne1, mlookup_mdelete, if_pos rfl]

/-- Claim C2 (amended): stated of the part_005 variant-B `Update`, which
is the one that repairs the index.  First, on a well-formed store, a
successful variant-B update of an existing user whose email changed
makes the index map the new email to the user's id and drops the old
email.  Second, `Create`, and variant-B `Update` whenever the new email
is not currently indexed to a different user, preserve the invariant
that every stored user id has exactly one email-index entry (the
`InvRepo` well-formedness).  The variant-A `Update` instead leaves the
old email indexed, violating both parts (see the counterexample). -/
theorem claim2_thm :
    (∀ (r : UserRepo) (u : User) (e0 : String),
      InvRepo r →
      (mlookup r.users u.id).isSome = true →
      mlookup r.emailIndex e0 = some u.id →
      e0 ≠ u.email →
      (updateUserB r u).1 = none ∧
      mlookup (updateUserB r u).2.emailIndex u.email = some u.id ∧
      mlookup (updateUserB r u).2.emailIndex e0 = none) ∧
    (∀ (r : UserRepo) (u : User), InvRepo r → InvRepo (createUser r u).2.2) ∧
    (∀ (r : UserRepo) (u : User), InvRepo r →
      (∀ j, mlookup r.emailIndex u.email = some j → j = u.id) →
      InvRepo (updateUserB r u).2) :=
  ⟨updateUserB_repair, inv_createUser, inv_updateUserB⟩

/-- Counterexample for C2 as stated: under the cited variant-A `Update`
(part_005 lines 53-63), after a successful update that changes the
stored user's email from `a@x` to `b@x`, the index still contains the
old email — and user id 1 is now referenced by two entries, refuting the
exactly-one-entry invariant. -/
theorem claim2_counterexample :
    (createUser initialUserRepo uC2).1 = none ∧
    (updateUserA rC2 uC2upd).1 = none ∧
    uC2upd.email ≠ "a@x" ∧
    mlookup rC2.emailIndex "a@x" = some 1 ∧
    mlookup (updateUserA rC2 uC2upd).2.emailIndex "a@x" = some 1 ∧
    mlookup (updateUserA rC2 uC2upd).2.emailIndex "b@x" = some 1 := by
  decide

/-- Witness for C2: the variant-B update of the same scenario repairs
the index — `b@x` maps to id 1 and `a@x` is gone. -/
theorem claim2_witness :
    (updateUserB rC2 uC2upd).1 = none ∧
    mlookup (updateUserB rC2 uC2upd).2.emailIndex uC2upd.email = some uC2upd.id ∧
    mlookup (updateUserB rC2 uC2upd).2.emailIndex "a@x" = none :=
  claim2_thm.1 rC2 uC2upd "a@x"
    (inv_createUser initialUserRepo uC2 inv_initial)
    (by decide) (by decide) (by decide)

theorem wrap64_id (n : Int) (h1 : -(2 ^ 63) ≤ n) (h2 : n ≤ 2 ^ 63 - 1) :
    wrap64 n = n := by
  have e63 : (2 : Int) ^ 63 = 9223372036854775808 := by norm_num
  have e64 : (2 : Int) ^ 64 = 18446744073709551616 := by norm_num
  unfold wrap64
  rw [Int.emod_eq_of_lt (by omega) (by omega)]
  omega

theorem createUserW_of_dup {r : UserRepo} {u : User}
    (h : (mlookup r.emailIndex u.email).isSome = true) :
    createUserW r u = (some "ya existe un usuario con ese email", u, r) := by
  simp [createUserW, h]

theorem createUserW_of_fresh {r : UserRepo} {u : User}
    (h : (mlookup r.emailIndex u.email).isSome = false) :
    createUserW r u = (none, { u with id := wrap64 (r.seq + 1) },
      { seq := wrap64 (r.seq + 1),
        users := minsert r.users (wrap64 (r.seq + 1))
          { u with id := wrap64 (r.seq + 1) },
        emailIndex := minsert r.emailIndex u.email (wrap64 (r.seq + 1)) }) := by
  simp [createUserW, h]

theorem runCreatesW_bounded : ∀ (us : List User) (r : UserRepo),
    0 ≤ r.seq → r.seq + us.length ≤ 2 ^ 63 - 1 →
    runCreatesW us r = idsFrom r.seq (runCreatesW us r).length := by
  intro us
  induction us with
  | nil => intro r h1 h2; rfl
  | cons u rest ih =>
    intro r h1 h2
    rw [List.length_cons] at h2
    by_cases hb : (mlookup r.emailIndex u.email).isSome = true
    · have hc := createUserW_of_dup hb
      simp only [runCreatesW, hc]
      refine ih r h1 ?_
      push_cast at h2 ⊢
      omega
    · have hc := createUserW_of_fresh (by simpa using hb)
      have hw : wrap64 (r.seq + 1) = r.seq + 1 := by
        apply wrap64_id
        · have : (0 : Int) ≤ 2 ^ 63 := by positivity
          omega
        · push_cast at h2
          omega
      simp only [runCreatesW, hc, hw, List.length_cons]
      rw [idsFrom]
      refine congrArg (fun l => (r.seq + 1) :: l) ?_
      refine ih _ (by show (0 : Int) ≤ r.seq + 1; omega) ?_
      show (r.seq + 1) + (rest.length : Int) ≤ 2 ^ 63 - 1
      push_cast at h2
      omega

theorem runCreatesW_append : ∀ (l1 l2 : List User) (r : UserRepo),
    runCreatesW (l1 ++ l2) r =
      runCreatesW l1 r ++ runCreatesW l2 (runRepoW l1 r) := by
  intro l1
  induction l1 with
  | nil => intro l2 r; rfl
  | cons u rest ih =>
    intro l2 r
    cases hc : (createUserW r u).1 with
    | none =>
      simp only [List.cons_append, runCreatesW, runRepoW, hc]
      exact congrArg (fun l => ((createUserW r u).2.1).id :: l) (ih l2 _)
    | some msg =>
      simp only [List.cons_append, runCreatesW, runRepoW, hc]
      exact ih l2 _

theorem natSeg_append : ∀ (b1 b2 a : Nat),
    natSeg a (b1 + b2) = natSeg a b1 ++ natSeg (a + b1) b2 := by
  intro b1
  induction b1 with
  | zero =>
    intro b2 a
    simp [natSeg]
  | succ n ih =>
    intro b2 a
    rw [show n + 1 + b2 = (n + b2) + 1 from by omega]
    rw [natSeg, natSeg, ih b2 (a + 1), List.cons_append]
    rw [show a + 1 + n = a + (n + 1) from by omega]

theorem usersSeg_append (b1 b2 a : Nat) :
    usersSeg a (b1 + b2) = usersSeg a b1 ++ usersSeg (a + b1) b2 := by
  unfold usersSeg
  rw [natSeg_append, List.map_append]

theorem runW_seg : ∀ (b a : Nat) (r : UserRepo), keysShort r a →
    runCreatesW (usersSeg a b) r = wrapIds r.seq b ∧
    (runRepoW (usersSeg a b) r).seq = seqIter r.seq b ∧
    keysShort (runRepoW (usersSeg a b) r) (a + b) := by
  intro b
  induction b with
  | zero =>
    intro a r hk
    exact ⟨rfl, rfl, hk⟩
  | succ n ih =>
    intro a r hk
    have hseg : usersSeg a (n + 1) = mkU a :: usersSeg (a + 1) n := by
      simp [usersSeg, natSeg]
    have hfresh : (mlookup r.emailIndex (mkU a).email).isSome = false := by
      cases hx : mlookup r.emailIndex (mkU a).email with
      | none => rfl
      | some j =>
        have hlen := hk _ j hx
        simp [mkU] at hlen
    have hc := createUserW_of_fresh hfresh
    have hk' : keysShort (createUserW r (mkU a)).2.2 (a + 1) := by
      intro e id he
      have he' : mlookup (minsert r.emailIndex (mkU a).email
          (wrap64 (r.seq + 1))) e = some id := by
        rw [hc] at he
        exact he
      rw [mlookup_minsert] at he'
      by_cases hce : e = (mkU a).email
      · subst hce
        simp [mkU]
      · rw [if_neg hce] at he'
        have := hk e id he'
        omega
    obtain ⟨ih1, ih2, ih3⟩ := ih (a + 1) (createUserW r (mkU a)).2.2 hk'
    refine ⟨?_, ?_, ?_⟩
    · rw [hseg]
      simp only [runCreatesW, hc]
      rw [wrapIds]
      simp only [hc] at ih1
      exact congrArg (fun l => wrap64 (r.seq + 1) :: l) ih1
    · rw [hseg]
      simp only [runRepoW]
      rw [seqIter, ih2, hc]
    · rw [hseg]
      simp only [runRepoW]
      rw [show a + (n + 1) = (a + 1) + n from by omega]
      exact ih3

theorem seqIter_id : ∀ (k : Nat) (s : Int), 0 ≤ s → s + k ≤ 2 ^ 63 - 1 →
    seqIter s k = s + k := by
  intro k
  induction k with
  | zero => intro s h1 h2; simp [seqIter]
  | succ n ih =>
    intro s h1 h2
    push_cast at h2
    rw [seqIter]
    have hw : wrap64 (s + 1) = s + 1 := by
      apply wrap64_id
      · have : (0 : Int) ≤ 2 ^ 63 := by positivity
        omega
      · omega
    rw [hw, ih (s + 1) (by omega) (by push_cast; omega)]
    push_cast
    ring

theorem wrapIds_id : ∀ (k : Nat) (s : Int), 0 ≤ s → s + k ≤ 2 ^ 63 - 1 →
    wrapIds s k = idsFrom s k := by
  intro k
  induction k with
  | zero => intro s h1 h2; rfl
  | succ n ih =>
    intro s h1 h2
    push_cast at h2
    rw [wrapIds, idsFrom]
    have hw : wrap64 (s + 1) = s + 1 := by
      apply wrap64_id
      · have : (0 : Int) ≤ 2 ^ 63 := by positivity
        omega
      · omega
    rw [hw, ih (s + 1) (by omega) (by push_cast; omega)]

theorem mem_idsFrom_last : ∀ (k : Nat) (s : Int), 1 ≤ k →
    (s + (k : Int)) ∈ idsFrom s k := by
  intro k
  induction k with
  | zero => intro s h; cases h
  | succ n ih =>
    intro s h
    rw [idsFrom]
    by_cases hn : n = 0
    · subst hn
      have : s + ((0 : Nat) + 1 : Nat) = s + 1 := by push_cast; ring
      rw [this]
      exact List.mem_cons_self _ _
    · refine List.mem_cons_of_mem _ ?_
      have hmem := ih (s + 1) (by omega)
      have heq : s + ((n + 1 : Nat) : Int) = (s + 1) + (n : Int) := by
        push_cast
        ring
      rw [heq]
      exact hmem

/-- Claim C6 (amended): with the `int64` wraparound of the sequence
counter (`r.seq++` in `nextID`) modelled faithfully, the identifiers
handed out by the successful `Create` calls on a fresh user store are
exactly `1, 2, ..., k` in call order — starting at 1, strictly
increasing, never repeated — for every call sequence of at most
`2^63 - 1` calls, that is, whenever the counter cannot overflow.  At the
`2^63`-th assignment the counter wraps to `-2^63` and monotonicity
fails (see the counterexample). -/
theorem claim6_thm (us : List User)
    (hlen : (us.length : Int) ≤ 2 ^ 63 - 1) :
    runCreatesW us initialUserRepo =
      idsFrom 0 (runCreatesW us initialUserRepo).length ∧
    List.Sorted (fun a b => a < b) (runCreatesW us initialUserRepo) := by
  have e63 : (2 : Int) ^ 63 = 9223372036854775808 := by norm_num
  rw [e63] at hlen
  have h := runCreatesW_bounded us initialUserRepo (le_refl 0)
    (by show (0 : Int) + us.length ≤ 2 ^ 63 - 1; rw [e63]; omega)
  constructor
  · exact h
  · rw [h]
    exact sorted_idsFrom _ _

/-- Counterexample for C6 as stated: over arbitrary call sequences the
claim fails on the code, because Go's `int64` counter wraps.  A store
instance that performs `2^63 + 1` successful creates (users with
pairwise distinct emails, so no create is rejected) assigns the ids
`1, ..., 2^63 - 1, -2^63, -2^63 + 1`: the sequence of assigned
identifiers is not strictly increasing. -/
theorem claim6_counterexample :
    ¬ List.Sorted (fun a b => a < b)
      (runCreatesW (usersSeg 0 (halfMax + 2)) initialUserRepo) := by
  intro hs
  have hcast : (halfMax : Int) = 2 ^ 63 - 1 := by norm_num [halfMax]
  have hks0 : keysShort initialUserRepo 0 := by
    intro e id h
    simp [initialUserRepo, mlookup] at h
  obtain ⟨h1, h2, h3⟩ := runW_seg halfMax 0 initialUserRepo hks0
  have hks1 : keysShort (runRepoW (usersSeg 0 halfMax) initialUserRepo)
      halfMax := by
    simpa using h3
  obtain ⟨g1, g2, g3⟩ :=
    runW_seg 2 halfMax (runRepoW (usersSeg 0 halfMax) initialUserRepo) hks1
  have hsplit : usersSeg 0 (halfMax + 2) =
      usersSeg 0 halfMax ++ usersSeg halfMax 2 := by
    rw [usersSeg_append]
    rw [Nat.zero_add]
  rw [hsplit,
    runCreatesW_append (usersSeg 0 halfMax) (usersSeg halfMax 2) initialUserRepo]
    at hs
  have hp : List.Pairwise (fun a b => a < b)
      (runCreatesW (usersSeg 0 halfMax) initialUserRepo ++
        runCreatesW (usersSeg halfMax 2)
          (runRepoW (usersSeg 0 halfMax) initialUserRepo)) := hs
  rw [List.pairwise_append] at hp
  have hseq0 : initialUserRepo.seq = (0 : Int) := rfl
  have hum : ((0 : Int) + (halfMax : Int)) ∈
      runCreatesW (usersSeg 0 halfMax) initialUserRepo := by
    rw [h1, hseq0, wrapIds_id halfMax 0 (le_refl 0) (by omega)]
    exact mem_idsFrom_last halfMax 0 (by norm_num [halfMax])
  have hseq1 : (runRepoW (usersSeg 0 halfMax) initialUserRepo).seq =
      (halfMax : Int) := by
    rw [h2, hseq0, seqIter_id halfMax 0 (le_refl 0) (by omega)]
    omega
  have hy : wrap64 ((halfMax : Int) + 1) ∈
      runCreatesW (usersSeg halfMax 2)
        (runRepoW (usersSeg 0 halfMax) initialUserRepo) := by
    rw [g1, hseq1, wrapIds]
    exact List.mem_cons_self _ _
  have hlt := hp.2.2 _ hum _ hy
  have hwrap : wrap64 ((halfMax : Int) + 1) = -(2 ^ 63) := by
    rw [hcast]
    unfold wrap64
    norm_num
  rw [hwrap, hcast] at hlt
  norm_num at hlt

/-- Witness for C6: a two-call sequence is far below the overflow bound;
its assigned identifiers are exactly `[1, 2]`. -/
theorem claim6_witness :
    runCreatesW [uSample, uC2upd] initialUserRepo =
      idsFrom 0 (runCreatesW [uSample, uC2upd] initialUserRepo).length ∧
    List.Sorted (fun a b => a < b)
      (runCreatesW [uSample, uC2upd] initialUserRepo) :=
  claim6_thm [uSample, uC2upd] (by norm_num)
